import Mathlib

/-!
Shallow embedding of `cpp/support/debug_utils.h` (mlc-llm debug probe):
the environment-driven activation gate (`IsLogitDebugEnabled`,
`IsLogitDebugVerbose`), the process-wide tokenizer registry
(`DebugRegistry` / `DebugRegisterTokenizer` / `DebugGetTokenizer`), and the
logit reporter `DebugPrintLogits` (host copy, per-row top-k extraction by
`std::partial_sort`, token-string escaping, verbose statistics).

Modelling conventions: machine floats become exact rationals; byte strings
become `List Nat` of byte values; the environment variable `MLC_DEBUG_LOGITS`
becomes an `Option String` (absent / value); the nullable `Tokenizer` object
reference becomes an `Option` of a lookup function `Nat → Option (List Nat)`
whose `none` result models `IdToToken` raising; the text written to stdout
becomes a structured `Report` value recording the banner, the per-sequence
blocks and the number of device-to-host copies performed.
-/

namespace MLCDebug

/-! ### Activation gate (lines 47-55 of debug_utils.h)

`std::getenv("MLC_DEBUG_LOGITS")` is modelled by `env : Option String`:
`none` when the variable is absent, `some v` when present with value `v`. -/

/-- The gate `IsLogitDebugEnabled`: `std::getenv("MLC_DEBUG_LOGITS") != nullptr`. -/
def IsLogitDebugEnabled (env : Option String) : Bool :=
  env.isSome

/-- The gate `IsLogitDebugVerbose`: the variable is present and its value compares
equal, as a string, to `"verbose"`. -/
def IsLogitDebugVerbose (env : Option String) : Bool :=
  match env with
  | none => false
  | some v => v == "verbose"

/-! ### Token-string escaping (lines 115-123)

The loop `for (char c : token_str)` appends, per byte: `"\\n"` for newline,
`"\\t"` for tab, `"\\r"` for carriage return, `"\\x" + std::to_string((unsigned char)c)`
for any byte outside 32..126, and the byte itself otherwise.  Note that
`std::to_string` renders the byte in DECIMAL.  Byte values: 92 is the
backslash, 110 is n, 116 is t, 114 is r, 120 is x. -/

/-- Decimal rendering `std::to_string` on an unsigned byte value: decimal digit characters,
most significant first. -/
def natToDecBytes (n : Nat) : List Nat :=
  if n < 10 then [48 + n]
  else natToDecBytes (n / 10) ++ [48 + n % 10]
decreasing_by exact Nat.div_lt_self (by omega) (by omega)

/-- One iteration of the escaping loop: the bytes appended for byte `c`.
The `c < 32 || c > 126` test of the source is byte-value equivalent whether
`char` is signed (bytes 128..255 become negative, hence `< 32`) or unsigned
(they are `> 126`). -/
def escapeChar (c : Nat) : List Nat :=
  if c = 10 then [92, 110]
  else if c = 9 then [92, 116]
  else if c = 13 then [92, 114]
  else if c < 32 ∨ 126 < c then 92 :: 120 :: natToDecBytes c
  else [c]

/-- The full escaping step: the loop builds `escaped_token` by appending
`escapeChar c` for each byte `c` of the token string in order. -/
def escapeToken (s : List Nat) : List Nat :=
  s.flatMap escapeChar

/-! ### Tokenizer registry (lines 27-44)

`Tokenizer` is a nullable object reference exposing `IdToToken`, which may
throw; we model a defined tokenizer as a lookup function returning the
token byte string, or `none` when the lookup raises. -/

/-- The lookup `IdToToken` of a defined tokenizer: `none` models the lookup raising. -/
abbrev TokStrFn := Nat → Option (List Nat)

/-- A possibly-null `Tokenizer` reference; `none` is the undefined state
(`tokenizer.defined()` false). -/
abbrev Tokenizer := Option TokStrFn

/-- The single registry slot: the member `Tokenizer tokenizer;` of
`DebugRegistry`, default-constructed to the undefined reference. -/
def DebugRegistry.initState : Tokenizer := none

/-- The operation `DebugRegisterTokenizer`: overwrite the slot with the given reference. -/
def DebugRegisterTokenizer (t : Tokenizer) (_state : Tokenizer) : Tokenizer :=
  t

/-- The operation `DebugGetTokenizer`: read the slot. -/
def DebugGetTokenizer (state : Tokenizer) : Tokenizer :=
  state

/-! ### Logit reporter `DebugPrintLogits` (lines 64-148)

The logits NDArray of shape `(batch_size, vocab_size)` with flat float data
is modelled by `NDArray2`: `data i j` is `logits_data[i * vocab + j]` as an
exact rational.  The text emitted on `std::cout` is modelled structurally:
per sequence a `SeqBlock` (request-id line, ranked entry lines, optional
statistics line), the whole wrapped in a `Report` that also counts the
device-to-host copies (`logits.CopyTo(kDLCPU)`). -/

/-- A rank-2 logits tensor: shape `(batch, vocab)` and flat row-major data. -/
structure NDArray2 where
  batch : Nat
  vocab : Nat
  data : Nat → Nat → ℚ

/-- Row `seqIdx` of the tensor: `seq_logits = logits_data + seq_idx * vocab_size`,
elements `seq_logits[0..vocab_size)`. -/
def seqRow (a : NDArray2) (seqIdx : Nat) : List ℚ :=
  (List.range a.vocab).map (a.data seqIdx)

/-- The vector of `(token_id, logit_value)` pairs built by the
`for (int i = 0; i < vocab_size; ++i)` loop. -/
def tokenLogits (row : List ℚ) : List (Nat × ℚ) :=
  row.enum

/-- The comparator `a.second > b.second` induces, on the sorted result of
`std::partial_sort`, the non-strict descending order by logit value. -/
def logitDescBool (a b : Nat × ℚ) : Bool :=
  decide (b.2 ≤ a.2)

/-- The count `print_count = std::min(top_k, vocab_size)`, as a count (`top_k` is a
C++ `int`, modelled by `Int`). -/
def printCount (topK : Int) (vocab : Nat) : Nat :=
  (min topK (vocab : Int)).toNat

/-- The `top_k` highest-scoring pairs in descending order:
`std::partial_sort` over the pair vector followed by reading its first
`print_count` entries.  `partial_sort` leaves the first
`min(top_k, vocab_size)` positions holding the highest-scoring pairs sorted
descending (tie order implementation-defined; a total sort restricted by
`take` realises one valid outcome). -/
def topTokenLogits (row : List ℚ) (topK : Int) : List (Nat × ℚ) :=
  ((tokenLogits row).mergeSort logitDescBool).take (printCount topK row.length)

/-- One printed ranked line: rank (`[i]`), token id, logit value, and the
optional `token="..."` escaped string. -/
structure TopEntry where
  rank : Nat
  tokenId : Nat
  logit : ℚ
  token : Option (List Nat)
deriving DecidableEq

/-- The optional `token="..."` part of an entry line: present only when
`has_tokenizer && verbose` and `IdToToken` does not raise; the `catch (...)`
turns a raising lookup into an omitted string. -/
def entryToken (tok : Tokenizer) (verbose : Bool) (tokenId : Nat) :
    Option (List Nat) :=
  match tok, verbose with
  | some f, true => (f tokenId).map escapeToken
  | _, _ => none

/-- The `for (int i = 0; i < print_count; ++i)` printing loop, with `r` the
rank of the next line. -/
def mkEntriesAux (tok : Tokenizer) (verbose : Bool) :
    Nat → List (Nat × ℚ) → List TopEntry
  | _, [] => []
  | r, p :: ps =>
    { rank := r, tokenId := p.1, logit := p.2,
      token := entryToken tok verbose p.1 } :: mkEntriesAux tok verbose (r + 1) ps

/-- The ranked entry lines of one sequence block. -/
def mkEntries (tok : Tokenizer) (verbose : Bool) (row : List ℚ) (topK : Int) :
    List TopEntry :=
  mkEntriesAux tok verbose 0 (topTokenLogits row topK)

/-- The value `*std::max_element(seq_logits, seq_logits + vocab_size)` (0 on the empty
range, where the source would be undefined). -/
def maxElement : List ℚ → ℚ
  | [] => 0
  | a :: t => t.foldl max a

/-- The value `*std::min_element(seq_logits, seq_logits + vocab_size)`. -/
def minElement : List ℚ → ℚ
  | [] => 0
  | a :: t => t.foldl min a

/-- The value `std::accumulate(seq_logits, seq_logits + vocab_size, 0.0f)`. -/
def sumElements (l : List ℚ) : ℚ :=
  l.foldl (· + ·) 0

/-- The verbose statistics line of one row: `max`, `min`,
`mean = sum / vocab_size`. -/
def rowStats (row : List ℚ) : ℚ × ℚ × ℚ :=
  (maxElement row, minElement row, sumElements row / (row.length : ℚ))

/-- One per-sequence block of the report. -/
structure SeqBlock where
  reqId : String
  seqIdx : Nat
  entries : List TopEntry
  stats : Option (ℚ × ℚ × ℚ)
deriving DecidableEq

/-- The body of the `for (int seq_idx = 0; ...)` loop for one row:
`req_id = seq_idx < request_ids.size() ? request_ids[seq_idx] : "unknown"`,
the ranked entries, and the statistics line when verbose. -/
def mkSeqBlock (tok : Tokenizer) (verbose : Bool) (requestIds : List String)
    (a : NDArray2) (topK : Int) (seqIdx : Nat) : SeqBlock :=
  { reqId := requestIds.getD seqIdx "unknown"
    seqIdx := seqIdx
    entries := mkEntries tok verbose (seqRow a seqIdx) topK
    stats := if verbose then some (rowStats (seqRow a seqIdx)) else none }

/-- The whole observable effect of one `DebugPrintLogits` call. -/
structure Report where
  hostCopies : Nat
  banner : Option String
  blocks : List SeqBlock
deriving DecidableEq

/-- The report operation `DebugPrintLogits(logits, phase, request_ids, top_k)`: return immediately
when the gate is off; otherwise copy to host once, and emit the banner with
the phase label and one block per batch row. -/
def DebugPrintLogits (env : Option String) (registry : Tokenizer)
    (logits : NDArray2) (phase : String) (requestIds : List String)
    (topK : Int) : Report :=
  if IsLogitDebugEnabled env then
    { hostCopies := 1
      banner := some phase
      blocks := (List.range logits.batch).map
        (mkSeqBlock (DebugGetTokenizer registry) (IsLogitDebugVerbose env)
          requestIds logits topK) }
  else
    { hostCopies := 0, banner := none, blocks := [] }

end MLCDebug

namespace MLCDebug

lemma escapeChar_printable {c : Nat} (h1 : 32 ≤ c) (h2 : c ≤ 126) :
    escapeChar c = [c] := by
  unfold escapeChar
  rw [if_neg (by omega), if_neg (by omega), if_neg (by omega), if_neg (by omega)]

lemma natToDecBytes_digits (n : Nat) : ∀ b ∈ natToDecBytes n, 48 ≤ b ∧ b ≤ 57 := by
  induction n using Nat.strong_induction_on with
  | _ n ih =>
    rw [natToDecBytes]
    split
    · intro b hb
      simp only [List.mem_singleton] at hb
      omega
    · intro b hb
      rw [List.mem_append, List.mem_singleton] at hb
      rcases hb with hb | hb
      · exact ih (n / 10) (Nat.div_lt_self (by omega) (by omega)) b hb
      · omega

lemma escapeChar_bytes_printable (c : Nat) : ∀ b ∈ escapeChar c, 32 ≤ b ∧ b ≤ 126 := by
  unfold escapeChar
  split_ifs with h1 h2 h3 h4
  · decide
  · decide
  · decide
  · intro b hb
    simp only [List.mem_cons] at hb
    rcases hb with rfl | rfl | hb
    · omega
    · omega
    · have := natToDecBytes_digits c b hb
      omega
  · intro b hb
    simp only [List.mem_singleton] at hb
    omega

/-- C9: verbose implies enabled. -/
theorem isLogitDebugVerbose_implies_enabled :
    ∀ env : Option String,
      IsLogitDebugVerbose env = true → IsLogitDebugEnabled env = true := by
  intro env h
  cases env with
  | none => simp [IsLogitDebugVerbose] at h
  | some v => simp [IsLogitDebugEnabled]

theorem isLogitDebugVerbose_implies_enabled_witness :
    IsLogitDebugVerbose (some "verbose") = true
      ∧ IsLogitDebugEnabled (some "verbose") = true :=
  ⟨by decide, isLogitDebugVerbose_implies_enabled (some "verbose") (by decide)⟩

/-- C6: enabled iff the variable is present (any value); verbose iff its
value is exactly "verbose". -/
theorem logitDebug_gate_spec :
    ∀ env : Option String,
      (IsLogitDebugEnabled env = true ↔ ∃ v, env = some v)
      ∧ (∀ v : String, IsLogitDebugEnabled (some v) = true)
      ∧ (IsLogitDebugVerbose env = true ↔ env = some "verbose")
      ∧ IsLogitDebugVerbose none = false
      ∧ (∀ v : String, v ≠ "verbose" → IsLogitDebugVerbose (some v) = false) := by
  intro env
  refine ⟨?_, ?_, ?_, rfl, ?_⟩
  · cases env <;> simp [IsLogitDebugEnabled]
  · intro v; rfl
  · cases env <;> simp [IsLogitDebugVerbose]
  · intro v hv
    simp [IsLogitDebugVerbose, hv]

theorem logitDebug_gate_spec_witness :
    IsLogitDebugEnabled (some "1") = true
      ∧ IsLogitDebugVerbose (some "1") = false :=
  ⟨(logitDebug_gate_spec (some "1")).2.1 "1",
   (logitDebug_gate_spec (some "1")).2.2.2.2 "1" (by decide)⟩

/-- C8: the registry slot: register replaces, get reads the last write, the
never-registered state reads as the absent value. -/
theorem debugRegistry_spec :
    (∀ (d state : Tokenizer),
        DebugGetTokenizer (DebugRegisterTokenizer d state) = d)
    ∧ (∀ (d1 d2 state : Tokenizer),
        DebugGetTokenizer
          (DebugRegisterTokenizer d2 (DebugRegisterTokenizer d1 state)) = d2)
    ∧ DebugGetTokenizer DebugRegistry.initState = none :=
  ⟨fun _ _ => rfl, fun _ _ _ => rfl, rfl⟩

/-- C10: on bytes already in the printable range 32..126 the escaping step
is the identity. -/
theorem escapeToken_printable_id :
    ∀ s : List Nat, (∀ b ∈ s, 32 ≤ b ∧ b ≤ 126) → escapeToken s = s := by
  intro s hs
  induction s with
  | nil => rfl
  | cons c t ih =>
    have hc := hs c (List.mem_cons_self c t)
    rw [escapeToken, List.flatMap_cons, escapeChar_printable hc.1 hc.2]
    have := ih (fun b hb => hs b (List.mem_cons_of_mem c hb))
    rw [escapeToken] at this
    rw [this]
    rfl

theorem escapeToken_printable_id_witness :
    escapeToken [72, 105, 33] = [72, 105, 33] :=
  escapeToken_printable_id [72, 105, 33] (by decide)

/-- C1 counterexample: byte value 200 is escaped to the DECIMAL form
`\x200` (bytes 92,120,50,48,48); the claimed hex form `\xc8` would contain
the byte 99 (the letter c), which does not occur in the output at all. -/
theorem escapeByte200_decimal_not_hex :
    escapeToken [200] = [92, 120, 50, 48, 48] ∧ 99 ∉ escapeToken [200] := by
  simp [escapeToken, escapeChar, natToDecBytes]

/-- C1 amended: newline renders as `\n`, tab as `\t`, carriage return as
`\r`, any other byte outside the printable range 32..126 as `\x` followed by
the byte value in DECIMAL (so byte 200 yields `\x200`), and the escaped
output contains no bytes outside 32..126. -/
theorem escapeToken_spec :
    ∀ s : List Nat,
      (∀ b ∈ escapeToken s, 32 ≤ b ∧ b ≤ 126)
      ∧ (∀ t : List Nat, escapeToken (10 :: t) = 92 :: 110 :: escapeToken t)
      ∧ (∀ t : List Nat, escapeToken (9 :: t) = 92 :: 116 :: escapeToken t)
      ∧ (∀ t : List Nat, escapeToken (13 :: t) = 92 :: 114 :: escapeToken t)
      ∧ (∀ c : Nat, ∀ t : List Nat,
          (c < 32 ∨ 126 < c) → c ≠ 9 → c ≠ 10 → c ≠ 13 →
            escapeToken (c :: t) = 92 :: 120 :: (natToDecBytes c ++ escapeToken t)) := by
  intro s
  refine ⟨?_, ?_, ?_, ?_, ?_⟩
  · intro b hb
    rw [escapeToken, List.mem_flatMap] at hb
    obtain ⟨c, _, hbc⟩ := hb
    exact escapeChar_bytes_printable c b hbc
  · intro t; rw [escapeToken, List.flatMap_cons]; rfl
  · intro t; rw [escapeToken, List.flatMap_cons]; rfl
  · intro t; rw [escapeToken, List.flatMap_cons]; rfl
  · intro c t hc h9 h10 h13
    rw [escapeToken, List.flatMap_cons]
    have hx : escapeChar c = 92 :: 120 :: natToDecBytes c := by
      unfold escapeChar
      rw [if_neg h10, if_neg h9, if_neg h13, if_pos hc]
    rw [hx, escapeToken]
    rfl

theorem escapeToken_spec_witness :
    escapeToken [200] = 92 :: 120 :: (natToDecBytes 200 ++ escapeToken []) :=
  (escapeToken_spec []).2.2.2.2 200 [] (by omega) (by decide) (by decide) (by decide)

end MLCDebug

namespace MLCDebug

/-- Placeholder block used only as the default of list indexing in
statements. -/
def defaultBlock : SeqBlock :=
  { reqId := "", seqIdx := 0, entries := [], stats := none }

lemma getD_range_map {α : Type} (f : Nat → α) (n i : Nat) (d : α) (h : i < n) :
    ((List.range n).map f).getD i d = f i := by
  rw [List.getD_eq_getElem?_getD, List.getElem?_map, List.getElem?_range h]
  rfl

/-- C2: with the gate disabled the call is a no-op: no device-to-host copy,
no banner, no blocks. -/
theorem debugPrintLogits_disabled_noop :
    ∀ (env : Option String) (registry : Tokenizer) (logits : NDArray2)
      (phase : String) (requestIds : List String) (topK : Int),
      IsLogitDebugEnabled env = false →
        DebugPrintLogits env registry logits phase requestIds topK =
          { hostCopies := 0, banner := none, blocks := [] } := by
  intro env registry logits phase requestIds topK h
  rw [DebugPrintLogits, h]
  rfl

theorem debugPrintLogits_disabled_noop_witness :
    IsLogitDebugEnabled none = false ∧
      DebugPrintLogits none (some fun _ => none) ⟨2, 3, fun i j => (i : ℚ) + j⟩
          "PREFILL" ["a"] 10 =
        { hostCopies := 0, banner := none, blocks := [] } :=
  ⟨rfl, debugPrintLogits_disabled_noop none (some fun _ => none)
    ⟨2, 3, fun i j => (i : ℚ) + j⟩ "PREFILL" ["a"] 10 rfl⟩

/-- C4: an enabled call emits exactly `batch` blocks however long the
request-id list is; a row indexed inside the list is labeled by its id, a
row indexed past its end is labeled "unknown". -/
theorem debugPrintLogits_blocks_labels :
    ∀ (env : Option String) (registry : Tokenizer) (logits : NDArray2)
      (phase : String) (requestIds : List String) (topK : Int),
      IsLogitDebugEnabled env = true →
      ((DebugPrintLogits env registry logits phase requestIds topK).blocks.length
          = logits.batch)
      ∧ (∀ i : Nat, i < logits.batch →
          (∀ h : i < requestIds.length,
            ((DebugPrintLogits env registry logits phase requestIds topK).blocks.getD
                i defaultBlock).reqId = requestIds.get ⟨i, h⟩)
          ∧ (requestIds.length ≤ i →
            ((DebugPrintLogits env registry logits phase requestIds topK).blocks.getD
                i defaultBlock).reqId = "unknown")) := by
  intro env registry logits phase requestIds topK henv
  rw [DebugPrintLogits, henv]
  simp only [if_true]
  constructor
  · simp
  · intro i hi
    rw [getD_range_map _ _ _ _ hi]
    constructor
    · intro h
      simp [mkSeqBlock, List.getD_eq_getElem?_getD, List.getElem?_eq_getElem h]
    · intro h
      simp [mkSeqBlock, List.getD_eq_getElem?_getD, List.getElem?_eq_none h]

theorem debugPrintLogits_blocks_labels_witness :
    ((DebugPrintLogits (some "1") none ⟨2, 3, fun i j => (i : ℚ) + j⟩ "DECODE"
        ["req-a"] 10).blocks.length = 2)
    ∧ ((DebugPrintLogits (some "1") none ⟨2, 3, fun i j => (i : ℚ) + j⟩ "DECODE"
        ["req-a"] 10).blocks.getD 0 defaultBlock).reqId = "req-a"
    ∧ ((DebugPrintLogits (some "1") none ⟨2, 3, fun i j => (i : ℚ) + j⟩ "DECODE"
        ["req-a"] 10).blocks.getD 1 defaultBlock).reqId = "unknown" :=
  ⟨(debugPrintLogits_blocks_labels (some "1") none ⟨2, 3, fun i j => (i : ℚ) + j⟩
      "DECODE" ["req-a"] 10 rfl).1,
   ((debugPrintLogits_blocks_labels (some "1") none ⟨2, 3, fun i j => (i : ℚ) + j⟩
      "DECODE" ["req-a"] 10 rfl).2 0 (by decide)).1 (by decide),
   ((debugPrintLogits_blocks_labels (some "1") none ⟨2, 3, fun i j => (i : ℚ) + j⟩
      "DECODE" ["req-a"] 10 rfl).2 1 (by decide)).2 (by decide)⟩

end MLCDebug

namespace MLCDebug

lemma logitDescBool_trans (a b c : Nat × ℚ)
    (hab : logitDescBool a b) (hbc : logitDescBool b c) : logitDescBool a c := by
  simp only [logitDescBool, decide_eq_true_eq] at *
  exact le_trans hbc hab

lemma logitDescBool_total (a b : Nat × ℚ) : logitDescBool a b || logitDescBool b a := by
  simp only [logitDescBool, Bool.or_eq_true, decide_eq_true_eq]
  exact le_total b.2 a.2

lemma mergeSort_logitDesc_pairwise (l : List (Nat × ℚ)) :
    (l.mergeSort logitDescBool).Pairwise (fun a b => b.2 ≤ a.2) := by
  have h := @List.sorted_mergeSort _ logitDescBool logitDescBool_trans
    logitDescBool_total l
  exact h.imp (fun hab => by simpa [logitDescBool] using hab)

lemma topTokenLogits_pairwise (row : List ℚ) (topK : Int) :
    (topTokenLogits row topK).Pairwise (fun a b => b.2 ≤ a.2) :=
  (mergeSort_logitDesc_pairwise (tokenLogits row)).sublist
    (List.take_sublist _ _)

lemma topTokenLogits_length (row : List ℚ) (topK : Int) :
    (topTokenLogits row topK).length = min (printCount topK row.length) row.length := by
  simp [topTokenLogits, tokenLogits, List.length_take]

lemma mkEntriesAux_length (tok : Tokenizer) (verbose : Bool) :
    ∀ (r : Nat) (ps : List (Nat × ℚ)),
      (mkEntriesAux tok verbose r ps).length = ps.length := by
  intro r ps
  induction ps generalizing r with
  | nil => rfl
  | cons p t ih => simp [mkEntriesAux, ih]

lemma mem_mkEntriesAux {tok : Tokenizer} {verbose : Bool} :
    ∀ {r : Nat} {ps : List (Nat × ℚ)} {e : TopEntry},
      e ∈ mkEntriesAux tok verbose r ps →
      ∃ q ∈ ps, e.tokenId = q.1 ∧ e.logit = q.2
        ∧ e.token = entryToken tok verbose q.1 := by
  intro r ps
  induction ps generalizing r with
  | nil => intro e h; simp [mkEntriesAux] at h
  | cons p t ih =>
    intro e h
    rw [mkEntriesAux, List.mem_cons] at h
    rcases h with rfl | h
    · exact ⟨p, List.mem_cons_self p t, rfl, rfl, rfl⟩
    · obtain ⟨q, hq, h1, h2, h3⟩ := ih h
      exact ⟨q, List.mem_cons_of_mem p hq, h1, h2, h3⟩

lemma mkEntriesAux_pairwise (tok : Tokenizer) (verbose : Bool) :
    ∀ (r : Nat) (ps : List (Nat × ℚ)),
      ps.Pairwise (fun a b => b.2 ≤ a.2) →
      (mkEntriesAux tok verbose r ps).Pairwise
        (fun e1 e2 => e2.logit ≤ e1.logit) := by
  intro r ps
  induction ps generalizing r with
  | nil => intro _; simp [mkEntriesAux]
  | cons p t ih =>
    intro h
    rw [List.pairwise_cons] at h
    rw [mkEntriesAux]
    refine List.Pairwise.cons ?_ (ih (r + 1) h.2)
    intro e he
    obtain ⟨q, hq, _, h2, _⟩ := mem_mkEntriesAux he
    rw [h2]
    exact h.1 q hq

lemma seqRow_length (a : NDArray2) (i : Nat) : (seqRow a i).length = a.vocab := by
  simp [seqRow]

/-- C3: with the gate on and `topK ≥ 0`, every emitted block holds exactly
`min(topK, vocab_size)` entries, sorted in descending order by logit. -/
theorem debugPrintLogits_topk_sorted_count :
    ∀ (env : Option String) (registry : Tokenizer) (logits : NDArray2)
      (phase : String) (requestIds : List String) (topK : Int),
      IsLogitDebugEnabled env = true → 0 ≤ topK →
      ∀ blk ∈ (DebugPrintLogits env registry logits phase requestIds topK).blocks,
        blk.entries.length = min topK.toNat logits.vocab
        ∧ blk.entries.Pairwise (fun e1 e2 => e2.logit ≤ e1.logit) := by
  intro env registry logits phase requestIds topK henv hk blk hblk
  rw [DebugPrintLogits, henv] at hblk
  simp only [if_true, List.mem_map, List.mem_range] at hblk
  obtain ⟨i, hi, rfl⟩ := hblk
  constructor
  · show (mkEntries _ _ _ _).length = _
    rw [mkEntries, mkEntriesAux_length, topTokenLogits_length, seqRow_length,
      printCount]
    omega
  · exact mkEntriesAux_pairwise _ _ _ _
      (topTokenLogits_pairwise (seqRow logits i) topK)

end MLCDebug

namespace MLCDebug

lemma foldl_max_mem : ∀ (t : List ℚ) (a : ℚ), t.foldl max a ∈ a :: t := by
  intro t
  induction t with
  | nil => intro a; simp
  | cons b t ih =>
    intro a
    rw [List.foldl_cons]
    have h := ih (max a b)
    rw [List.mem_cons] at h
    rcases h with h | h
    · rw [List.mem_cons, List.mem_cons]
      rcases max_choice a b with hm | hm
      · exact Or.inl (h.trans hm)
      · exact Or.inr (Or.inl (h.trans hm))
    · rw [List.mem_cons, List.mem_cons]
      exact Or.inr (Or.inr h)

lemma le_foldl_max : ∀ (t : List ℚ) (a x : ℚ), x = a ∨ x ∈ t → x ≤ t.foldl max a := by
  intro t
  induction t with
  | nil =>
    intro a x h
    rcases h with rfl | h
    · simp
    · simp at h
  | cons b t ih =>
    intro a x h
    rw [List.foldl_cons]
    rcases h with rfl | h
    · exact le_trans (le_max_left x b) (ih (max x b) (max x b) (Or.inl rfl))
    · rw [List.mem_cons] at h
      rcases h with rfl | h
      · exact le_trans (le_max_right a x) (ih (max a x) (max a x) (Or.inl rfl))
      · exact ih (max a b) x (Or.inr h)

lemma foldl_min_mem : ∀ (t : List ℚ) (a : ℚ), t.foldl min a ∈ a :: t := by
  intro t
  induction t with
  | nil => intro a; simp
  | cons b t ih =>
    intro a
    rw [List.foldl_cons]
    have h := ih (min a b)
    rw [List.mem_cons] at h
    rcases h with h | h
    · rw [List.mem_cons, List.mem_cons]
      rcases min_choice a b with hm | hm
      · exact Or.inl (h.trans hm)
      · exact Or.inr (Or.inl (h.trans hm))
    · rw [List.mem_cons, List.mem_cons]
      exact Or.inr (Or.inr h)

lemma foldl_min_le : ∀ (t : List ℚ) (a x : ℚ), x = a ∨ x ∈ t → t.foldl min a ≤ x := by
  intro t
  induction t with
  | nil =>
    intro a x h
    rcases h with rfl | h
    · simp
    · simp at h
  | cons b t ih =>
    intro a x h
    rw [List.foldl_cons]
    rcases h with rfl | h
    · exact le_trans (ih (min x b) (min x b) (Or.inl rfl)) (min_le_left x b)
    · rw [List.mem_cons] at h
      rcases h with rfl | h
      · exact le_trans (ih (min a x) (min a x) (Or.inl rfl)) (min_le_right a x)
      · exact ih (min a b) x (Or.inr h)

lemma maxElement_spec (l : List ℚ) (h : l ≠ []) :
    maxElement l ∈ l ∧ ∀ x ∈ l, x ≤ maxElement l := by
  cases l with
  | nil => exact absurd rfl h
  | cons a t =>
    constructor
    · exact foldl_max_mem t a
    · intro x hx
      rw [List.mem_cons] at hx
      exact le_foldl_max t a x hx

lemma minElement_spec (l : List ℚ) (h : l ≠ []) :
    minElement l ∈ l ∧ ∀ x ∈ l, minElement l ≤ x := by
  cases l with
  | nil => exact absurd rfl h
  | cons a t =>
    constructor
    · exact foldl_min_mem t a
    · intro x hx
      rw [List.mem_cons] at hx
      exact foldl_min_le t a x hx

lemma foldl_add_le (m : ℚ) : ∀ (l : List ℚ) (init : ℚ), (∀ x ∈ l, x ≤ m) →
    l.foldl (· + ·) init ≤ init + l.length * m := by
  intro l
  induction l with
  | nil => intro init _; simp
  | cons a t ih =>
    intro init h
    rw [List.foldl_cons]
    have h1 := ih (init + a) (fun x hx => h x (List.mem_cons_of_mem a hx))
    have h2 := h a (List.mem_cons_self a t)
    have h3 : ((a :: t).length : ℚ) = (t.length : ℚ) + 1 := by
      rw [List.length_cons]; push_cast; ring
    rw [h3]
    linarith

lemma le_foldl_add (m : ℚ) : ∀ (l : List ℚ) (init : ℚ), (∀ x ∈ l, m ≤ x) →
    init + l.length * m ≤ l.foldl (· + ·) init := by
  intro l
  induction l with
  | nil => intro init _; simp
  | cons a t ih =>
    intro init h
    rw [List.foldl_cons]
    have h1 := ih (init + a) (fun x hx => h x (List.mem_cons_of_mem a hx))
    have h2 := h a (List.mem_cons_self a t)
    have h3 : ((a :: t).length : ℚ) = (t.length : ℚ) + 1 := by
      rw [List.length_cons]; push_cast; ring
    rw [h3]
    linarith

lemma mean_bounds (l : List ℚ) (h : l ≠ []) :
    minElement l ≤ sumElements l / (l.length : ℚ)
      ∧ sumElements l / (l.length : ℚ) ≤ maxElement l := by
  have hlen : 0 < (l.length : ℚ) := by
    have : 0 < l.length := List.length_pos.mpr h
    exact_mod_cast this
  have hmax := foldl_add_le (maxElement l) l 0 (maxElement_spec l h).2
  have hmin := le_foldl_add (minElement l) l 0 (minElement_spec l h).2
  rw [zero_add] at hmax hmin
  constructor
  · rw [le_div_iff₀ hlen]
    calc minElement l * (l.length : ℚ) = (l.length : ℚ) * minElement l := by ring
      _ ≤ sumElements l := hmin
  · rw [div_le_iff₀ hlen]
    calc sumElements l ≤ (l.length : ℚ) * maxElement l := hmax
      _ = maxElement l * (l.length : ℚ) := by ring

end MLCDebug

namespace MLCDebug

/-- C5: in verbose mode every block carries a statistics triple computed
over the full row: max and min are attained on the row and bound every
score, the mean times vocab_size equals the row sum (the mean is the
exact arithmetic average), and min ≤ mean ≤ max. -/
theorem debugPrintLogits_stats_full_row :
    ∀ (env : Option String) (registry : Tokenizer) (logits : NDArray2)
      (phase : String) (requestIds : List String) (topK : Int),
      IsLogitDebugVerbose env = true → 0 < logits.vocab →
      ∀ blk ∈ (DebugPrintLogits env registry logits phase requestIds topK).blocks,
        ∃ mx mn me, blk.stats = some (mx, mn, me)
          ∧ mx ∈ seqRow logits blk.seqIdx
          ∧ mn ∈ seqRow logits blk.seqIdx
          ∧ (∀ x ∈ seqRow logits blk.seqIdx, mn ≤ x ∧ x ≤ mx)
          ∧ me * (logits.vocab : ℚ) = sumElements (seqRow logits blk.seqIdx)
          ∧ mn ≤ me ∧ me ≤ mx := by
  intro env registry logits phase requestIds topK hv hvocab blk hblk
  have henv : IsLogitDebugEnabled env = true := by
    cases env with
    | none => simp [IsLogitDebugVerbose] at hv
    | some v => rfl
  rw [DebugPrintLogits, henv] at hblk
  simp only [if_true, List.mem_map, List.mem_range] at hblk
  obtain ⟨i, hi, rfl⟩ := hblk
  have hidx : (mkSeqBlock (DebugGetTokenizer registry) (IsLogitDebugVerbose env)
      requestIds logits topK i).seqIdx = i := rfl
  rw [hidx]
  have hrow : seqRow logits i ≠ [] := by
    have : (seqRow logits i).length = logits.vocab := seqRow_length logits i
    intro hnil
    rw [hnil] at this
    simp at this
    omega
  have hlen : ((seqRow logits i).length : ℚ) = (logits.vocab : ℚ) := by
    rw [seqRow_length]
  refine ⟨maxElement (seqRow logits i), minElement (seqRow logits i),
    sumElements (seqRow logits i) / ((seqRow logits i).length : ℚ), ?_, ?_, ?_, ?_, ?_, ?_, ?_⟩
  · show (if IsLogitDebugVerbose env = true then some (rowStats (seqRow logits i))
        else none) = _
    rw [hv, if_pos rfl, rowStats]
  · exact (maxElement_spec _ hrow).1
  · exact (minElement_spec _ hrow).1
  · intro x hx
    exact ⟨(minElement_spec _ hrow).2 x hx, (maxElement_spec _ hrow).2 x hx⟩
  · rw [← hlen]
    have hlenpos : (0 : ℚ) < ((seqRow logits i).length : ℚ) := by
      have : 0 < (seqRow logits i).length := List.length_pos.mpr hrow
      exact_mod_cast this
    exact div_mul_cancel₀ _ (ne_of_gt hlenpos)
  · exact (mean_bounds _ hrow).1
  · exact (mean_bounds _ hrow).2

end MLCDebug

namespace MLCDebug

lemma mkEntriesAux_proj (tok tokg : Tokenizer) (v : Bool) :
    ∀ (r : Nat) (ps : List (Nat × ℚ)),
      (mkEntriesAux tok v r ps).map (fun e => (e.rank, e.tokenId, e.logit))
        = (mkEntriesAux tokg v r ps).map (fun e => (e.rank, e.tokenId, e.logit)) := by
  intro r ps
  induction ps generalizing r with
  | nil => rfl
  | cons p t ih => simp [mkEntriesAux, ih]

/-- C7: a raising `IdToToken` lookup is contained per entry: the block
structure and every rank/token-id/logit line are identical whatever the
tokenizer answers (in particular when every lookup raises), and for each
entry the token string is omitted exactly when its lookup raises, present
and escaped when the lookup succeeds in verbose mode. -/
theorem debugPrintLogits_decode_error_contained :
    ∀ (env : Option String) (f : TokStrFn) (g : Tokenizer) (logits : NDArray2)
      (phase : String) (requestIds : List String) (topK : Int),
      ((DebugPrintLogits env (some f) logits phase requestIds topK).blocks.map
          (fun b => (b.reqId, b.seqIdx,
            b.entries.map (fun e => (e.rank, e.tokenId, e.logit)), b.stats)))
        = ((DebugPrintLogits env g logits phase requestIds topK).blocks.map
          (fun b => (b.reqId, b.seqIdx,
            b.entries.map (fun e => (e.rank, e.tokenId, e.logit)), b.stats)))
      ∧ (∀ blk ∈ (DebugPrintLogits env (some f) logits phase requestIds topK).blocks,
          ∀ e ∈ blk.entries,
            (f e.tokenId = none → e.token = none)
            ∧ (∀ s, f e.tokenId = some s → IsLogitDebugVerbose env = true →
                e.token = some (escapeToken s))) := by
  intro env f g logits phase requestIds topK
  constructor
  · by_cases henv : IsLogitDebugEnabled env = true
    · rw [DebugPrintLogits, DebugPrintLogits, henv]
      simp only [if_true, List.map_map]
      apply List.map_congr_left
      intro i _
      simp only [Function.comp_apply, mkSeqBlock, mkEntries]
      rw [mkEntriesAux_proj (DebugGetTokenizer (some f)) (DebugGetTokenizer g)]
    · rw [DebugPrintLogits, DebugPrintLogits]
      rw [Bool.not_eq_true] at henv
      rw [henv]
      rfl
  · intro blk hblk e he
    by_cases henv : IsLogitDebugEnabled env = true
    · rw [DebugPrintLogits, henv] at hblk
      simp only [if_true, List.mem_map, List.mem_range] at hblk
      obtain ⟨i, hi, rfl⟩ := hblk
      obtain ⟨q, hq, hid, hlog, htok⟩ := mem_mkEntriesAux he
      constructor
      · intro hf
        rw [htok]
        cases hverb : IsLogitDebugVerbose env with
        | false => rfl
        | true =>
          show (f q.1).map escapeToken = none
          rw [hid] at hf
          rw [hf]
          rfl
      · intro s hf hverb
        rw [htok, hverb]
        show (f q.1).map escapeToken = some (escapeToken s)
        rw [hid] at hf
        rw [hf]
        rfl
    · rw [DebugPrintLogits] at hblk
      rw [Bool.not_eq_true] at henv
      rw [henv] at hblk
      simp at hblk

end MLCDebug

namespace MLCDebug

/-- A concrete 1 x 3 logits tensor with row (5, 9, 2), used to instantiate
the universally quantified theorems. -/
def wLogits : NDArray2 :=
  ⟨1, 3, fun _ j => if j = 0 then 5 else if j = 1 then 9 else 2⟩

/-- A concrete lookup: raises on token id 1, answers byte string "A\n"
otherwise. -/
def wTokFn : TokStrFn :=
  fun i => if i = 1 then none else some [65, 10]

/-- Placeholder entry used only as the default of list indexing in
statements. -/
def defaultEntry : TopEntry :=
  { rank := 0, tokenId := 0, logit := 0, token := none }

unseal List.merge List.mergeSort in
theorem debugPrintLogits_topk_sorted_count_witness :
    ((DebugPrintLogits (some "1") none wLogits "DECODE" [] 2).blocks.getD 0
        defaultBlock).entries.length = min (2 : Int).toNat wLogits.vocab
    ∧ ((DebugPrintLogits (some "1") none wLogits "DECODE" [] 2).blocks.getD 0
        defaultBlock).entries.Pairwise (fun e1 e2 => e2.logit ≤ e1.logit) :=
  debugPrintLogits_topk_sorted_count (some "1") none wLogits "DECODE" [] 2 rfl
    (by decide)
    ((DebugPrintLogits (some "1") none wLogits "DECODE" [] 2).blocks.getD 0
      defaultBlock)
    (by decide)

theorem debugPrintLogits_stats_full_row_witness :
    minElement (seqRow wLogits 0)
        ≤ sumElements (seqRow wLogits 0) / ((seqRow wLogits 0).length : ℚ)
    ∧ sumElements (seqRow wLogits 0) / ((seqRow wLogits 0).length : ℚ)
        ≤ maxElement (seqRow wLogits 0) := by
  have hblocks : (DebugPrintLogits (some "verbose") none wLogits "DECODE" [] 0).blocks
      = [mkSeqBlock none true [] wLogits 0 0] := rfl
  have hmem : mkSeqBlock none true [] wLogits 0 0
      ∈ (DebugPrintLogits (some "verbose") none wLogits "DECODE" [] 0).blocks := by
    rw [hblocks]
    exact List.mem_singleton.mpr rfl
  obtain ⟨mx, mn, me, h1, _, _, _, _, h6, h7⟩ :=
    debugPrintLogits_stats_full_row (some "verbose") none wLogits "DECODE" [] 0 rfl
      (by decide) _ hmem
  have hstats : (mkSeqBlock none true [] wLogits 0 0).stats
      = some (maxElement (seqRow wLogits 0), minElement (seqRow wLogits 0),
          sumElements (seqRow wLogits 0) / ((seqRow wLogits 0).length : ℚ)) := rfl
  rw [hstats] at h1
  injection h1 with h1
  have hmx : maxElement (seqRow wLogits 0) = mx := congrArg Prod.fst h1
  have hmn : minElement (seqRow wLogits 0) = mn :=
    congrArg Prod.fst (congrArg Prod.snd h1)
  have hme : sumElements (seqRow wLogits 0) / ((seqRow wLogits 0).length : ℚ) = me :=
    congrArg Prod.snd (congrArg Prod.snd h1)
  rw [hmx, hmn, hme]
  exact ⟨h6, h7⟩

unseal List.merge List.mergeSort in
theorem debugPrintLogits_decode_error_contained_witness :
    ((mkSeqBlock (some wTokFn) true [] wLogits 2 0).entries.getD 0
        defaultEntry).token = none
    ∧ ((mkSeqBlock (some wTokFn) true [] wLogits 2 0).entries.getD 1
        defaultEntry).token = some (escapeToken [65, 10]) := by
  have hblocks : (DebugPrintLogits (some "verbose") (some wTokFn) wLogits "DECODE"
      [] 2).blocks = [mkSeqBlock (some wTokFn) true [] wLogits 2 0] := rfl
  have hmem : mkSeqBlock (some wTokFn) true [] wLogits 2 0
      ∈ (DebugPrintLogits (some "verbose") (some wTokFn) wLogits "DECODE"
          [] 2).blocks := by
    rw [hblocks]
    exact List.mem_singleton.mpr rfl
  have h := debugPrintLogits_decode_error_contained (some "verbose") wTokFn none
    wLogits "DECODE" [] 2
  constructor
  · exact (h.2 _ hmem _ (by decide)).1 (by decide)
  · exact (h.2 _ hmem _ (by decide)).2 [65, 10] (by decide) rfl

end MLCDebug
